import Mathlib

/-!
Shallow embedding of the YouTube playlist transfer script (src/main.py).

The script has four functions: `get_all_videos_from_playlist` (paginated
listing), `add_video_to_playlist` (single insertion), `get_last_video_id` and
`save_last_video_id` (checkpoint file), plus a `main` driver.  Network
responses are modelled by oracles, the progress file by an
`Option String` (its content, or `none` when absent), and the `while True`
pagination loop by explicit fuel (a run that exhausts every fuel bound is a
run of the Python loop that never terminates).
-/

/-! ## Checkpoint store (get_last_video_id / save_last_video_id) -/

/-- Model of Python `str.isspace()` on a single character: true exactly for
the code points Python treats as whitespace — tab through carriage return
(U+0009..U+000D), the separators U+001C..U+001F, space, next line (U+0085),
no-break space (U+00A0), ogham space mark (U+1680), the Unicode spaces
U+2000..U+200A, line separator (U+2028), paragraph separator (U+2029),
narrow no-break space (U+202F), medium mathematical space (U+205F) and
ideographic space (U+3000). -/
def pyIsSpace (c : Char) : Bool :=
  let n := c.toNat
  (decide (9 ≤ n) && decide (n ≤ 13)) ||
  (decide (28 ≤ n) && decide (n ≤ 31)) ||
  decide (n = 32) || decide (n = 133) || decide (n = 160) ||
  decide (n = 0x1680) ||
  (decide (0x2000 ≤ n) && decide (n ≤ 0x200a)) ||
  decide (n = 0x2028) || decide (n = 0x2029) ||
  decide (n = 0x202f) || decide (n = 0x205f) || decide (n = 0x3000)

/-- Model of Python `str.strip()` with no argument: remove the characters
satisfying `pyIsSpace` from both ends of the string. -/
def pyStrip (s : String) : String :=
  ⟨((s.data.dropWhile pyIsSpace).reverse.dropWhile pyIsSpace).reverse⟩

/-- Model of `get_last_video_id`: when the progress file exists its content is
read and stripped of surrounding whitespace, otherwise the function returns
`None`. -/
def get_last_video_id (file : Option String) : Option String :=
  file.map pyStrip

/-- Model of `save_last_video_id`: the progress file is overwritten with the
given identifier; the result is the new file state. -/
def save_last_video_id (video_id : String) : Option String :=
  some video_id

/-! ## Resume-point computation in main -/

/-- Model of Python `list.index` restricted to strings: index of the first
occurrence, `none` when absent (where Python raises `ValueError`). -/
def listIndex (x : String) : List String → Option Nat
  | [] => none
  | a :: rest => if a = x then some 0 else (listIndex x rest).map (· + 1)

/-- Work-list computation of `main` (lines 126-136): given the value returned
by `get_last_video_id`, an empty string or `None` is falsy and yields the full
sequence; otherwise the suffix strictly after the first occurrence of the
checkpoint is taken, falling back to the full sequence when the checkpoint
does not occur (the `except ValueError` branch). -/
def computeWork (ids : List String) : Option String → List String
  | none => ids
  | some l =>
    if l = "" then ids
    else
      match listIndex l ids with
      | some i => ids.drop (i + 1)
      | none => ids

/-! ## Transfer loop of main (lines 140-150) -/

/-- State of the transfer loop: the identifiers attempted so far (one per call
of `add_video_to_playlist`), the count `successful_additions`, and the
progress-file content (written by `save_last_video_id` after each success). -/
structure TState where
  attempted : List String
  succ : Nat
  ckpt : Option String
  deriving DecidableEq, Repr

/-- The transfer loop: iterate the work list in order; the oracle
`ins i` is the boolean returned by the i-th call of `add_video_to_playlist`.
On success the checkpoint file is overwritten with the current identifier and
the counter incremented; on failure the loop breaks immediately. -/
def transferGo (ins : Nat → Bool) :
    List String → Nat → List String → Nat → Option String → TState
  | [], _, att, s, c => ⟨att, s, c⟩
  | v :: rest, i, att, s, c =>
    if ins i then transferGo ins rest (i + 1) (att ++ [v]) (s + 1) (some v)
    else ⟨att ++ [v], s, c⟩

/-- The transfer loop started on a work list with initial file content `c0`. -/
def transferLoop (ins : Nat → Bool) (work : List String) (c0 : Option String) : TState :=
  transferGo ins work 0 [] 0 c0

/-- Checkpoint value after a run of consecutive successful insertions of `w`,
starting from checkpoint `c`: the last element of `w` when `w` is non-empty. -/
def lastCkpt (c : Option String) : List String → Option String
  | [] => c
  | v :: rest => lastCkpt (some v) rest

/-! ## The main driver (lines 114-157) -/

/-- Observable outcome of one run of `main`: the planned work list
(`videos_to_add`), the identifiers attempted, the success count, and the final
progress-file state. -/
structure MainResult where
  planned : List String
  attempted : List String
  succ : Nat
  file : Option String
  deriving DecidableEq, Repr

/-- Work list computed by `main` from the listing result and the progress
file. -/
def mainWork (ids : List String) (file0 : Option String) : List String :=
  computeWork ids (get_last_video_id file0)

/-- Model of `main` after a listing that produced `ids`: an empty listing
returns early ("No videos to transfer") leaving the file untouched; otherwise
the work list is computed from the checkpoint, the transfer loop runs, and the
progress file is removed exactly when every planned item succeeded. -/
def mainRun (ids : List String) (file0 : Option String) (ins : Nat → Bool) : MainResult :=
  if ids.isEmpty then ⟨[], [], 0, file0⟩
  else
    let work := mainWork ids file0
    let st := transferLoop ins work file0
    ⟨work, st.attempted, st.succ, if st.succ = work.length then none else st.ckpt⟩

/-! ## Lister (get_all_videos_from_playlist, lines 29-64) -/

/-- Model of one page returned by the listing endpoint: for each entry the
result of the nested lookup
`item.get("snippet", ...).get("resourceId", ...).get("videoId")` (so `none`
when no identifier is resolvable), plus the optional `nextPageToken`. -/
structure Page where
  items : List (Option String)
  next : Option String

/-- Identifiers contributed by one page: entries whose `videoId` lookup gave a
truthy value (`if video_id:` skips both `None` and the empty string). -/
def resolvable (items : List (Option String)) : List String :=
  items.filterMap fun it =>
    match it with
    | some v => if v = "" then none else some v
    | none => none

/-- The pagination loop of `get_all_videos_from_playlist`, with explicit fuel
for the `while True`.  The oracle `fetch tok` models one
`requests.get` + `raise_for_status` + `json()` round for page token `tok`
(`none` on the first request); `Except.error` is any
`requests.exceptions.RequestException`.  On such an error the function
prints and returns the empty list, discarding the accumulator; otherwise the
resolvable identifiers are appended and the loop continues while a truthy
`nextPageToken` is present.  A result of `none` means the fuel ran out, i.e.
the Python loop is still running after that many iterations. -/
def fetchPages (fetch : Option String → Except Unit Page) :
    Nat → Option String → List String → Option (List String)
  | 0, _, _ => none
  | fuel + 1, tok, acc =>
    match fetch tok with
    | .error _ => some []
    | .ok page =>
      let acc2 := acc ++ resolvable page.items
      match page.next with
      | none => some acc2
      | some t => if t = "" then some acc2 else fetchPages fetch fuel (some t) acc2

/-- Model of `get_all_videos_from_playlist`: run the pagination loop from no
token with an empty accumulator. -/
def get_all_videos_from_playlist (fetch : Option String → Except Unit Page)
    (fuel : Nat) : Option (List String) :=
  fetchPages fetch fuel none []

/-- A finite chain of pages actually served by the endpoint, starting at
token `tok`: each page is fetched successfully, every page but the last
carries a truthy continuation token leading to the next one, and the last
page carries no (or an empty) token. -/
def servedBy (fetch : Option String → Except Unit Page) :
    Option String → List Page → Prop
  | _, [] => False
  | tok, [p] => fetch tok = .ok p ∧ (p.next = none ∨ p.next = some "")
  | tok, p :: q :: rest =>
    fetch tok = .ok p ∧ ∃ t, p.next = some t ∧ t ≠ "" ∧ servedBy fetch (some t) (q :: rest)

/-- An endpoint that always answers with an empty page and the same
continuation token "t": the repeating-token scenario. -/
def cycleFetch : Option String → Except Unit Page :=
  fun _ => .ok ⟨[], some "t"⟩

/-- A concrete two-page endpoint used as evaluation witness: the first page
has entries a, (unresolvable), b and points to token "t2"; the second page
has entry c and is final. -/
def twoPageFetch : Option String → Except Unit Page
  | none => .ok ⟨[some "a", none, some "b"], some "t2"⟩
  | some s => if s = "t2" then .ok ⟨[some "c"], none⟩ else .error ()

/-! ## Inserter (add_video_to_playlist, lines 66-100)

The error-detail block inside the `except HTTPError` handler indexes into the
parsed error body with `error_data["error"].get("errors")[0].get("reason")`,
so a minimal model of Python values and of the exceptions those operations
can raise is needed. -/

/-- Python/JSON values, as far as the error-detail extraction inspects
them. -/
inductive PyVal where
  | str (s : String)
  | int (n : Int)
  | list (elts : List PyVal)
  | dict (fields : List (String × PyVal))
  | pynone

/-- Python exceptions that the error-detail block can raise; only
`json.JSONDecodeError` is caught by the inner handler. -/
inductive PyExn where
  | typeError
  | indexError
  | attributeError
  | keyError
  deriving DecidableEq, Repr

/-- Substring test, modelling Python `needle in haystack` on strings. -/
def strContains (haystack needle : String) : Bool :=
  decide (1 < (haystack.splitOn needle).length)

/-- Lookup in a Python dict modelled as an association list. -/
def dictLookup : List (String × PyVal) → String → Option PyVal
  | [], _ => none
  | (k, v) :: rest, key => if k = key then some v else dictLookup rest key

/-- Membership of a string in a Python list: only a `str` element can equal a
string (Python `==` between a string and a non-string value is `False`). -/
def listHasStr (key : String) : List PyVal → Bool
  | [] => false
  | .str s :: rest => s == key || listHasStr key rest
  | _ :: rest => listHasStr key rest

/-- Model of Python `key in value`: key test on dicts, membership on lists,
substring test on strings, `TypeError` otherwise. -/
def pyIn (key : String) : PyVal → Except PyExn Bool
  | .dict d => .ok (dictLookup d key).isSome
  | .list l => .ok (listHasStr key l)
  | .str s => .ok (strContains s key)
  | .int _ => .error .typeError
  | .pynone => .error .typeError

/-- Model of Python subscription `value[key]` with a string key: dict lookup
(`KeyError` when absent), `TypeError` on every other value. -/
def pyGetItem (v : PyVal) (key : String) : Except PyExn PyVal :=
  match v with
  | .dict d =>
    match dictLookup d key with
    | some w => .ok w
    | none => .error .keyError
  | _ => .error .typeError

/-- Model of the Python method call `value.get(key)`: defined on dicts with
default `None`; any other receiver has no `get` attribute. -/
def pyGet (v : PyVal) (key : String) : Except PyExn PyVal :=
  match v with
  | .dict d => .ok ((dictLookup d key).getD .pynone)
  | _ => .error .attributeError

/-- Model of Python subscription `value[0]`: head of a non-empty list
(`IndexError` on an empty one), first character of a non-empty string,
`TypeError` otherwise (in particular `None[0]`). -/
def pySub0 : PyVal → Except PyExn PyVal
  | .list (a :: _) => .ok a
  | .list [] => .error .indexError
  | .str s => if s = "" then .error .indexError else .ok (.str (s.take 1))
  | .dict _ => .error .keyError
  | .pynone => .error .typeError
  | .int _ => .error .typeError

/-- Outcome of the `requests.post` call in `add_video_to_playlist`:
a 2xx response, a transport-level `RequestException`, or an `HTTPError` from
`raise_for_status` whose body parses to the given value (`none` when
`response.json()` raises `JSONDecodeError`). -/
inductive Resp where
  | success
  | transportErr
  | httpErr (body : Option PyVal)

/-- Model of `add_video_to_playlist`.  A value `.ok b` is a normal `return b`;
`.error e` is a Python exception escaping the function: the inner handler
catches only `json.JSONDecodeError`, so any `TypeError` / `IndexError` /
`AttributeError` raised while extracting the error details propagates (the
outer handlers are not active inside the `except HTTPError` block). -/
def add_video_to_playlist (resp : Resp) : Except PyExn Bool :=
  match resp with
  | .success => .ok true
  | .transportErr => .ok false
  | .httpErr body =>
    match body with
    | none => .ok false
    | some errorData =>
      match pyIn "error" errorData with
      | .error e => .error e
      | .ok false => .ok false
      | .ok true => do
        let errVal ← pyGetItem errorData "error"
        let _ ← pyGet errVal "message"
        let errs ← pyGet errVal "errors"
        let first ← pySub0 errs
        let _ ← pyGet first "reason"
        .ok false

/-! ## Helper lemmas -/

theorem lastCkpt_get :
    ∀ (w : List String), w ≠ [] → ∀ c : Option String,
      lastCkpt c w = w[w.length - 1]? := by
  intro w
  induction w with
  | nil => intro h; exact absurd rfl h
  | cons v rest ih =>
    intro _ c
    cases rest with
    | nil => simp [lastCkpt]
    | cons a t =>
      have h1 := ih (by simp) (some v)
      simp only [lastCkpt] at h1 ⊢
      rw [h1]
      have hlen : (a :: t).length - 1 + 1 = (v :: a :: t).length - 1 := by
        simp
      rw [show (v :: a :: t).length - 1 = ((a :: t).length - 1) + 1 from by simp]
      simp

theorem getElem?_take_lt :
    ∀ (l : List String) (n i : Nat), i < n → (l.take n)[i]? = l[i]? := by
  intro l
  induction l with
  | nil => simp
  | cons a t ih =>
    intro n i h
    cases n with
    | zero => omega
    | succ n =>
      cases i with
      | zero => simp
      | succ i => simpa using ih n i (by omega)

theorem listIndex_eq_none :
    ∀ (l : List String) (x : String), x ∉ l → listIndex x l = none := by
  intro l x
  induction l with
  | nil => intro _; rfl
  | cons a t ih =>
    intro h
    have hax : ¬a = x := fun hc => h (by simp [hc])
    simp only [listIndex, if_neg hax]
    rw [ih (fun hc => h (List.mem_cons_of_mem a hc))]
    rfl

theorem listIndex_of_nodup :
    ∀ (l : List String), l.Nodup → ∀ (i : Nat) (v : String),
      l[i]? = some v → listIndex v l = some i := by
  intro l
  induction l with
  | nil => simp
  | cons a t ih =>
    intro hnd i v hget
    rcases List.nodup_cons.mp hnd with ⟨hmem, hndt⟩
    cases i with
    | zero =>
      simp only [List.getElem?_cons_zero, Option.some_inj] at hget
      subst hget
      simp [listIndex]
    | succ i =>
      simp only [List.getElem?_cons_succ] at hget
      have hvt : v ∈ t := List.getElem?_mem hget
      have hav : ¬a = v := fun hc => hmem (hc ▸ hvt)
      simp [listIndex, if_neg hav, ih hndt i v hget]

theorem transferGo_all (ins : Nat → Bool) :
    ∀ (w : List String) (i : Nat) (att : List String) (s : Nat) (c : Option String),
      (∀ j, j < w.length → ins (i + j) = true) →
      transferGo ins w i att s c = ⟨att ++ w, s + w.length, lastCkpt c w⟩ := by
  intro w
  induction w with
  | nil => intro i att s c _; simp [transferGo, lastCkpt]
  | cons v rest ih =>
    intro i att s c h
    have h0 : ins i = true := by simpa using h 0 (by simp)
    have hrec : ∀ j, j < rest.length → ins (i + 1 + j) = true := by
      intro j hj
      have := h (j + 1) (by simp; omega)
      rwa [show i + (j + 1) = i + 1 + j from by omega] at this
    simp only [transferGo, h0, if_pos]
    rw [ih (i + 1) (att ++ [v]) (s + 1) (some v) hrec]
    simp only [TState.mk.injEq]
    exact ⟨by simp, by simp only [List.length_cons]; omega, rfl⟩

theorem transferGo_firstFail (ins : Nat → Bool) :
    ∀ (w : List String) (j i : Nat) (att : List String) (s : Nat) (c : Option String),
      j < w.length → ins (i + j) = false → (∀ m, m < j → ins (i + m) = true) →
      transferGo ins w i att s c = ⟨att ++ w.take (j + 1), s + j, lastCkpt c (w.take j)⟩ := by
  intro w
  induction w with
  | nil => intro j i att s c hj; simp at hj
  | cons v rest ih =>
    intro j i att s c hj hf hs
    cases j with
    | zero =>
      have h0 : ins i = false := by simpa using hf
      simp [transferGo, h0, lastCkpt]
    | succ j =>
      have h0 : ins i = true := by simpa using hs 0 (by omega)
      have hf2 : ins (i + 1 + j) = false := by
        rwa [show i + 1 + j = i + (j + 1) from by omega]
      have hs2 : ∀ m, m < j → ins (i + 1 + m) = true := by
        intro m hm
        have := hs (m + 1) (by omega)
        rwa [show i + (m + 1) = i + 1 + m from by omega] at this
      have hj2 : j < rest.length := by
        simp only [List.length_cons] at hj; omega
      simp only [transferGo, h0, if_pos]
      rw [ih j (i + 1) (att ++ [v]) (s + 1) (some v) hj2 hf2 hs2]
      simp only [TState.mk.injEq]
      refine ⟨by simp, by omega, rfl⟩

theorem transferGo_inv (ins : Nat → Bool) :
    ∀ (w : List String) (i : Nat) (att : List String) (s : Nat) (c : Option String),
      s ≤ (transferGo ins w i att s c).succ ∧
      (transferGo ins w i att s c).succ ≤ s + w.length ∧
      ((transferGo ins w i att s c).succ = s → (transferGo ins w i att s c).ckpt = c) ∧
      (s < (transferGo ins w i att s c).succ →
        (transferGo ins w i att s c).ckpt = w[(transferGo ins w i att s c).succ - s - 1]?) := by
  intro w
  induction w with
  | nil =>
    intro i att s c
    refine ⟨le_refl s, by simp [transferGo], fun _ => rfl, fun h => absurd h (by simp [transferGo])⟩
  | cons v rest ih =>
    intro i att s c
    by_cases h0 : ins i = true
    · simp only [transferGo, h0, if_pos]
      obtain ⟨ha, hb, hc, hd⟩ := ih (i + 1) (att ++ [v]) (s + 1) (some v)
      refine ⟨by omega, by simp; omega, ?_, ?_⟩
      · intro he; omega
      · intro he
        rcases Nat.lt_or_ge (s + 1) (transferGo ins rest (i + 1) (att ++ [v]) (s + 1) (some v)).succ
          with hlt | hge
        · rw [hd hlt]
          rw [show (transferGo ins rest (i + 1) (att ++ [v]) (s + 1) (some v)).succ - s - 1 =
            ((transferGo ins rest (i + 1) (att ++ [v]) (s + 1) (some v)).succ - (s + 1) - 1) + 1
            from by omega]
          simp
        · have heq : (transferGo ins rest (i + 1) (att ++ [v]) (s + 1) (some v)).succ = s + 1 := by
            omega
          rw [hc heq, heq]
          simp
    · have h0f : ins i = false := by simpa using h0
      simp only [transferGo, h0f]
      refine ⟨le_refl s, by simp, fun _ => rfl, fun h => by simp at h⟩

theorem fetchPages_cycleFetch :
    ∀ (fuel : Nat) (tok : Option String) (acc : List String),
      fetchPages cycleFetch fuel tok acc = none := by
  intro fuel
  induction fuel with
  | zero => intro tok acc; rfl
  | succ n ih =>
    intro tok acc
    show (if ("t" : String) = "" then some (acc ++ resolvable [])
      else fetchPages cycleFetch n (some "t") (acc ++ resolvable [])) = none
    rw [if_neg (by decide)]
    exact ih (some "t") (acc ++ resolvable [])

theorem fetchPages_servedBy (fetch : Option String → Except Unit Page) :
    ∀ (ps : List Page) (tok : Option String), servedBy fetch tok ps →
      ∀ acc : List String,
        fetchPages fetch ps.length tok acc =
          some (acc ++ (ps.map fun p => resolvable p.items).flatten) := by
  intro ps
  induction ps with
  | nil => intro tok h; exact absurd h (by simp [servedBy])
  | cons p rest ih =>
    intro tok h acc
    cases rest with
    | nil =>
      obtain ⟨hf, hnext⟩ := h
      show (match fetch tok with
        | .error _ => some []
        | .ok page =>
          match page.next with
          | none => some (acc ++ resolvable page.items)
          | some t => if t = "" then some (acc ++ resolvable page.items)
            else fetchPages fetch 0 (some t) (acc ++ resolvable page.items)) =
        some (acc ++ ([p].map fun q => resolvable q.items).flatten)
      rw [hf]
      rcases hnext with hn | hn <;> simp [hn]
    | cons q rest2 =>
      obtain ⟨hf, t, hnext, ht, hserved⟩ := h
      have hrec := ih (some t) hserved (acc ++ resolvable p.items)
      show (match fetch tok with
        | .error _ => some []
        | .ok page =>
          match page.next with
          | none => some (acc ++ resolvable page.items)
          | some t2 => if t2 = "" then some (acc ++ resolvable page.items)
            else fetchPages fetch (q :: rest2).length (some t2)
              (acc ++ resolvable page.items)) =
        some (acc ++ ((p :: q :: rest2).map fun r => resolvable r.items).flatten)
      simp only [hf, hnext, if_neg ht, hrec]
      simp

/-! ## Claim theorems -/

/-- C1: if the insertion of the M-th work item (1-indexed) fails, the loop
attempts exactly the first M items and nothing at positions M+1..end, and the
stored checkpoint (the progress file) equals the (M-1)-th work item when
M is at least 2, and remains absent when M = 1 and no checkpoint existed
before the loop. -/
theorem C1_halt_on_failure (ins : Nat → Bool) (work : List String) (c0 : Option String)
    (M : Nat) (h1 : 1 ≤ M) (h2 : M ≤ work.length)
    (hf : ins (M - 1) = false) (hs : ∀ j, j < M - 1 → ins j = true) :
    (transferLoop ins work c0).attempted = work.take M ∧
    (transferLoop ins work c0).succ = M - 1 ∧
    (2 ≤ M → (transferLoop ins work c0).ckpt = work[M - 2]?) ∧
    (M = 1 → c0 = none → (transferLoop ins work c0).ckpt = none) := by
  have key := transferGo_firstFail ins work (M - 1) 0 [] 0 c0 (by omega)
    (by simpa using hf) (by intro m hm; simpa using hs m hm)
  unfold transferLoop
  rw [key]
  refine ⟨?_, ?_, ?_, ?_⟩
  · show [] ++ work.take (M - 1 + 1) = work.take M
    simp only [List.nil_append]
    congr 1
    omega
  · show 0 + (M - 1) = M - 1
    omega
  · intro hM
    show lastCkpt c0 (work.take (M - 1)) = work[M - 2]?
    have hlen : (work.take (M - 1)).length = M - 1 := by
      rw [List.length_take]; omega
    have hne : work.take (M - 1) ≠ [] := by
      intro hcon
      rw [hcon] at hlen
      simp at hlen
      omega
    rw [lastCkpt_get _ hne c0, hlen,
      getElem?_take_lt work (M - 1) (M - 1 - 1) (by omega)]
    congr 1
  · intro hM hc0
    subst hM
    subst hc0
    rfl

/-- Witness for C1 at a concrete input: four work items, the first two
insertions succeed and the third fails, no prior checkpoint. -/
theorem C1_witness :
    (transferLoop (fun j => decide (j < 2)) ["a", "b", "c", "d"] none).attempted
        = ["a", "b", "c"] ∧
    (transferLoop (fun j => decide (j < 2)) ["a", "b", "c", "d"] none).ckpt
        = some "b" := by
  have h := C1_halt_on_failure (fun j => decide (j < 2)) ["a", "b", "c", "d"] none 3
    (by omega) (by simp) (by decide) (by intro j hj; simpa using hj)
  exact ⟨by rw [h.1]; rfl, by rw [h.2.2.1 (by omega)]; rfl⟩

/-- C2 (amended): given a non-empty sequence of pairwise-distinct identifiers
whose K-th element (1-indexed) is non-empty and is unchanged by whitespace
stripping, a stored checkpoint equal to that K-th element makes the computed
work list exactly the suffix strictly after position K, of length N - K.
(The amendment adds the truthiness and stripping conditions; the original
claim fails for an identifier whose stripped value is falsy, see the
counterexample.) -/
theorem C2_resume_suffix (ids : List String) (K : Nat) (v : String)
    (hnd : ids.Nodup) (h1 : 1 ≤ K) (h2 : K ≤ ids.length)
    (hv : ids[K - 1]? = some v) (hne : v ≠ "") (htr : pyStrip v = v) :
    computeWork ids (get_last_video_id (some v)) = ids.drop K ∧
    (computeWork ids (get_last_video_id (some v))).length = ids.length - K := by
  have hread : get_last_video_id (some v) = some v := by
    simp [get_last_video_id, htr]
  rw [hread]
  have hidx : listIndex v ids = some (K - 1) := listIndex_of_nodup ids hnd (K - 1) v hv
  have hcw : computeWork ids (some v) = ids.drop K := by
    simp only [computeWork, if_neg hne, hidx]
    congr 1
    omega
  exact ⟨hcw, by rw [hcw, List.length_drop]⟩

/-- Counterexample to C2 as stated: for the one-element sequence consisting of
the empty-string identifier and K = 1, the stored checkpoint equals the K-th
identifier, yet the computed work list has 1 element instead of the claimed
N - K = 0: the read checkpoint is falsy, so `main` treats it as absent. -/
theorem C2_cex :
    List.Nodup [""] ∧ ([""] : List String)[0]? = some "" ∧
    (computeWork [""] (get_last_video_id (some ""))).length = 1 := by
  exact ⟨by simp, rfl, rfl⟩

/-- Witness for C2 at a concrete input: three distinct identifiers with the
checkpoint equal to the second one. -/
theorem C2_witness :
    computeWork ["a", "b", "c"] (get_last_video_id (some "b")) = ["c"] ∧
    (computeWork ["a", "b", "c"] (get_last_video_id (some "b"))).length = 1 := by
  have h := C2_resume_suffix ["a", "b", "c"] 2 "b" (by decide) (by omega) (by simp)
    rfl (by decide) (by decide)
  exact ⟨by rw [h.1]; rfl, by rw [h.2]; rfl⟩

/-- C3: a checkpoint value that occurs nowhere in the source sequence leaves
the work list equal to the full sequence; the stale checkpoint is recovered
locally (the `except ValueError` branch, or the falsy check for an empty
value) and the run proceeds from the beginning. -/
theorem C3_stale_checkpoint (ids : List String) (c : String) (h : c ∉ ids) :
    computeWork ids (some c) = ids := by
  by_cases hc : c = ""
  · simp [computeWork, hc]
  · simp only [computeWork, if_neg hc, listIndex_eq_none ids c h]

/-- Witness for C3 at a concrete input: a checkpoint absent from the
sequence. -/
theorem C3_witness : computeWork ["a", "b"] (some "z") = ["a", "b"] :=
  C3_stale_checkpoint ["a", "b"] "z" (by decide)

/-- C4: when the listing is non-empty and every insertion of the (non-empty)
planned work list succeeds, the progress file is removed at the end of the
run; and when the success count differs from the planned length the file is
exactly the checkpoint left by the loop, i.e. removal happens only on full
success. -/
theorem C4_completion_clears (ids : List String) (file0 : Option String) (ins : Nat → Bool) :
    (ids ≠ [] → mainWork ids file0 ≠ [] →
      (∀ j, j < (mainWork ids file0).length → ins j = true) →
      (mainRun ids file0 ins).file = none) ∧
    ((mainRun ids file0 ins).succ ≠ (mainRun ids file0 ins).planned.length →
      (mainRun ids file0 ins).file = (transferLoop ins (mainWork ids file0) file0).ckpt) := by
  constructor
  · intro hne _hw hall
    have hcond : ¬(ids.isEmpty = true) := by
      simp only [List.isEmpty_iff]
      exact hne
    have hall2 : ∀ j, j < (mainWork ids file0).length → ins (0 + j) = true := by
      intro j hj
      simpa using hall j hj
    have hrun := transferGo_all ins (mainWork ids file0) 0 [] 0 file0 hall2
    unfold mainRun transferLoop
    rw [if_neg hcond]
    show (if (transferGo ins (mainWork ids file0) 0 [] 0 file0).succ =
        (mainWork ids file0).length then none
      else (transferGo ins (mainWork ids file0) 0 [] 0 file0).ckpt) = none
    rw [hrun]
    simp
  · intro hsucc
    by_cases hids : ids.isEmpty = true
    · unfold mainRun at hsucc
      rw [if_pos hids] at hsucc
      exact absurd rfl hsucc
    · unfold mainRun at hsucc ⊢
      rw [if_neg hids] at hsucc ⊢
      exact if_neg hsucc

/-- Witness for C4 at a concrete input: two items, all insertions succeeding
for the first conjunct, all failing for the second. -/
theorem C4_witness :
    (mainRun ["a", "b"] none (fun _ => true)).file = none ∧
    (mainRun ["a", "b"] none (fun _ => false)).file =
      (transferLoop (fun _ => false) (mainWork ["a", "b"] none) none).ckpt := by
  refine ⟨(C4_completion_clears ["a", "b"] none (fun _ => true)).1
      (by decide) (by decide) (fun j _ => rfl),
    (C4_completion_clears ["a", "b"] none (fun _ => false)).2 (by decide)⟩

/-- C5: when the page request for the current token fails (transport error or
non-2xx, i.e. the fetch oracle returns an error), the Lister returns the
empty sequence, discarding the accumulator holding all identifiers collected
from earlier pages, so it never returns a partial sequence. -/
theorem C5_listing_abort (fetch : Option String → Except Unit Page) (fuel : Nat)
    (tok : Option String) (acc : List String) (h : fetch tok = .error ()) :
    fetchPages fetch (fuel + 1) tok acc = some [] := by
  simp only [fetchPages, h]

/-- Witness for C5 at a concrete input: a failing endpoint with a non-empty
accumulator of previously collected identifiers. -/
theorem C5_witness : fetchPages (fun _ => Except.error ()) 1 none ["x"] = some [] :=
  C5_listing_abort (fun _ => Except.error ()) 0 none ["x"] rfl

/-- C6 (code bug): evaluating `add_video_to_playlist` on an HTTP error whose
parseable JSON body is an error object without the expected "errors" list
shows the function raising an uncaught TypeError (from subscripting the
`None` returned by `.get("errors")`) instead of returning a boolean: the
inner handler only catches `json.JSONDecodeError`. -/
theorem C6_uncaught_exception :
    add_video_to_playlist (.httpErr (some (.dict [("error",
      .dict [("message", .str "quota")])]))) = .error .typeError := rfl

/-- C7 (amended): for an endpoint that serves a finite chain of pages (each
page linking to the next by a truthy token, the last carrying none), the
Lister terminates within fuel equal to the number of pages and produces
exactly the resolvable identifiers in page order.  The original claim also
asserted termination when the endpoint repeats a continuation token; the
counterexample shows the loop then never terminates, since the code has no
repeated-token detection. -/
theorem C7_pagination_terminates (fetch : Option String → Except Unit Page)
    (ps : List Page) (h : servedBy fetch none ps) :
    get_all_videos_from_playlist fetch ps.length =
      some ((ps.map fun p => resolvable p.items).flatten) := by
  have hout := fetchPages_servedBy fetch ps none h []
  simpa [get_all_videos_from_playlist] using hout

/-- Counterexample to C7 as stated: against the endpoint that always answers
with the same continuation token, the pagination loop never terminates — no
fuel bound suffices. -/
theorem C7_cex :
    ¬∃ fuel ids, get_all_videos_from_playlist cycleFetch fuel = some ids := by
  rintro ⟨fuel, ids, h⟩
  unfold get_all_videos_from_playlist at h
  rw [fetchPages_cycleFetch] at h
  exact Option.noConfusion h

/-- Witness for C7 at a concrete input: two pages with three resolvable
entries (and one unresolvable one). -/
theorem C7_witness :
    get_all_videos_from_playlist twoPageFetch 2 = some ["a", "b", "c"] := by
  have h := C7_pagination_terminates twoPageFetch
    [⟨[some "a", none, some "b"], some "t2"⟩, ⟨[some "c"], none⟩]
    ⟨rfl, "t2", rfl, by decide, rfl, Or.inl rfl⟩
  exact h.trans (by decide)

/-- C8 (amended): when the Lister returns an empty sequence, `main` returns
early with zero attempts and zero successes, leaving the progress file
exactly as it was — the clearing code at the end of `main` is never reached,
so an existing checkpoint is NOT removed (contrary to the claim as stated,
see the counterexample). -/
theorem C8_empty_listing (file0 : Option String) (ins : Nat → Bool) :
    mainRun [] file0 ins = ⟨[], [], 0, file0⟩ := rfl

/-- Counterexample to C8 as stated: with an empty listing and an existing
checkpoint record, the record still exists after the run, whereas the claim
says it is removed. -/
theorem C8_cex : (mainRun [] (some "B") (fun _ => true)).file ≠ none := by
  decide

/-- C9: at every point of the transfer loop (modelled as the state after the
first k iterations, i.e. the run on the length-k prefix of the work list),
the checkpoint file equals the identifier of the most recent successful
insertion — the s-th work item after s > 0 successes — and still holds its
initial value while no insertion has succeeded; it is only ever written by a
successful insertion. -/
theorem C9_checkpoint_inv (ins : Nat → Bool) (work : List String)
    (c0 : Option String) (k : Nat) :
    ((transferLoop ins (work.take k) c0).succ = 0 →
      (transferLoop ins (work.take k) c0).ckpt = c0) ∧
    (0 < (transferLoop ins (work.take k) c0).succ →
      (transferLoop ins (work.take k) c0).ckpt =
        work[(transferLoop ins (work.take k) c0).succ - 1]?) := by
  obtain ⟨ha, hb, hc, hd⟩ := transferGo_inv ins (work.take k) 0 [] 0 c0
  unfold transferLoop
  constructor
  · intro h0
    exact hc h0
  · intro hpos
    have hck := hd hpos
    rw [hck]
    have hlen : (work.take k).length ≤ k := by
      rw [List.length_take]
      omega
    have hlt : (transferGo ins (work.take k) 0 [] 0 c0).succ - 0 - 1 < k := by
      omega
    rw [getElem?_take_lt work k _ hlt]
    simp

/-- Witness for C9 at a concrete input: after two successful insertions the
checkpoint equals the second work item. -/
theorem C9_witness :
    (transferLoop (fun _ => true) (["a", "b"].take 2) none).ckpt = some "b" := by
  have h := (C9_checkpoint_inv (fun _ => true) ["a", "b"] none 2).2 (by decide)
  rw [h]
  rfl

/-- C10: writing a checkpoint and reading it back returns the identifier
exactly when it is non-empty and free of surrounding whitespace; an
identifier altered by stripping does not round-trip; and a written empty
string is read back as a value that the resume computation treats exactly
like an absent checkpoint. -/
theorem C10_roundtrip (v : String) (ids : List String) :
    (v ≠ "" → pyStrip v = v →
      get_last_video_id (save_last_video_id v) = some v) ∧
    (pyStrip v ≠ v →
      get_last_video_id (save_last_video_id v) ≠ some v) ∧
    computeWork ids (get_last_video_id (save_last_video_id "")) =
      computeWork ids none := by
  refine ⟨?_, ?_, ?_⟩
  · intro _ htr
    simp [get_last_video_id, save_last_video_id, htr]
  · intro htr hc
    apply htr
    have hsome : some (pyStrip v) = some v := by
      simpa [get_last_video_id, save_last_video_id] using hc
    exact Option.some_injective _ hsome
  · have h1 : get_last_video_id (save_last_video_id "") = some "" := rfl
    rw [h1]
    simp [computeWork]

/-- Witness for C10 at concrete inputs: a clean identifier round-trips, one
with leading whitespace does not, and the empty write acts as absent. -/
theorem C10_witness :
    get_last_video_id (save_last_video_id "abc") = some "abc" ∧
    get_last_video_id (save_last_video_id " abc") ≠ some " abc" ∧
    computeWork ["x"] (get_last_video_id (save_last_video_id "")) =
      computeWork ["x"] none := by
  exact ⟨(C10_roundtrip "abc" ["x"]).1 (by decide) (by decide),
    (C10_roundtrip " abc" ["x"]).2.1 (by decide),
    (C10_roundtrip "" ["x"]).2.2⟩

example : get_last_video_id (save_last_video_id "abc") = some "abc" := by decide
example : get_last_video_id (save_last_video_id " a ") = some "a" := by decide
example : get_last_video_id (save_last_video_id "a\x0b") = some "a" := by decide
example : get_last_video_id (save_last_video_id "\x0c a　") = some "a" := by
  decide
example : computeWork ["a", "b", "c"] (some "b") = ["c"] := by decide
example : computeWork ["a", "b"] (some "z") = ["a", "b"] := by decide
example : (mainRun [] (some "B") (fun _ => true)).file = some "B" := by decide
example :
    mainRun ["a", "b"] none (fun i => decide (i < 1)) =
      ⟨["a", "b"], ["a", "b"], 1, some "a"⟩ := by decide
example :
    add_video_to_playlist (.httpErr (some (.dict [("error",
      .dict [("message", .str "quota")])]))) = .error .typeError := rfl
example :
    add_video_to_playlist (.httpErr (some (.dict [("error",
      .dict [("message", .str "m"), ("errors",
        .list [.dict [("reason", .str "quotaExceeded")]])])]))) = .ok false := rfl
example : add_video_to_playlist (.httpErr none) = .ok false := rfl
example : fetchPages twoPageFetch 2 none [] = some ["a", "b", "c"] := by decide
example : fetchPages cycleFetch 5 none [] = none := by decide
example : fetchPages (fun _ => .error ()) 1 none ["x"] = some [] := by decide
